import Mathlib

/-!
Shallow embedding of `skyeye/utils/scheduler.py`.

The module defines two learning-rate schedulers on top of PyTorch's
`LRScheduler` base class: `MultiStepMultiGammaLR` (piecewise-constant decay
with one decay factor per milestone, each applied to the *base* rate) and
`BurnInLR` (a linear warm-up wrapper that delegates to an inner scheduler
after the ramp and force-synchronizes the inner scheduler's counter).

Python floats are modelled as rationals (`ℚ`), Python ints as `ℤ` (list
indices and lengths as `ℕ`).  A raised exception is modelled as `Except.error`
(construction-time `ValueError`s) or as `Option.none` (the `ZeroDivisionError`
reachable in `BurnInLR.get_lr` when `steps = 0`, and its propagation through
`step`).  The PyTorch base class is external to the repository; its contract
is modelled from the spec (section 2): it snapshots one base rate per
parameter group at construction, and its `step(epoch?)` advances the counter
(to `epoch` if given, else by one) and then writes the subclass-provided rate
vector into the optimizer's parameter groups.
-/

namespace SkyEye

/-- One optimizer parameter group; only its mutable learning-rate field is
relevant to the schedulers. -/
structure ParamGroup where
  lr : ℚ
deriving DecidableEq, Repr

/-- Modelled from the spec: the external optimizer exposes an ordered sequence
of parameter groups, each with a mutable rate field. -/
structure Optim where
  param_groups : List ParamGroup
deriving DecidableEq, Repr

/-- Loop of Python's `bisect.bisect_right(a, x)` (stdlib, external to the
repository): binary search with `lo, hi` bounds, right-biased
(`else lo = mid+1` on equality). -/
def bisectRightAux (a : List ℤ) (x : ℤ) (lo hi : ℕ) : ℕ :=
  if lo < hi then
    if x < a.getD ((lo + hi) / 2) 0 then bisectRightAux a x lo ((lo + hi) / 2)
    else bisectRightAux a x ((lo + hi) / 2 + 1) hi
  else lo
termination_by hi - lo
decreasing_by all_goals omega

/-- Python's `bisect.bisect_right(a, x)` with the default bounds `0, len(a)`. -/
def bisect_right (a : List ℤ) (x : ℤ) : ℕ :=
  bisectRightAux a x 0 a.length

/-- Scheduler state.  `multiStep` holds the attributes of a
`MultiStepMultiGammaLR` (`gamma` is the stored list `[1] + gamma`, as assigned
in `__init__`); `burnIn` holds the attributes of a `BurnInLR`, whose `base`
may be any scheduler.  `base_lrs` and `last_epoch` are the inherited
base-class attributes. -/
inductive Sched where
  | multiStep (milestones : List ℤ) (gamma : List ℚ) (base_lrs : List ℚ) (last_epoch : ℤ)
  | burnIn (base : Sched) (steps : ℤ) (start : ℚ) (base_lrs : List ℚ) (last_epoch : ℤ)
deriving DecidableEq, Repr

/-- The inherited `last_epoch` attribute (the step counter). -/
def Sched.last_epoch : Sched → ℤ
  | .multiStep _ _ _ le => le
  | .burnIn _ _ _ _ le => le

/-- The inherited `base_lrs` attribute (base-rate snapshot, one per group). -/
def Sched.base_lrs : Sched → List ℚ
  | .multiStep _ _ bl _ => bl
  | .burnIn _ _ _ bl _ => bl

/-- Assignment `self.last_epoch = e` (the object's own counter only). -/
def Sched.setLastEpoch : Sched → ℤ → Sched
  | .multiStep m g bl _, e => .multiStep m g bl e
  | .burnIn b s st bl _, e => .burnIn b s st bl e

/-- Assignment `self.base.last_epoch = e` of `BurnInLR.step` (a direct
attribute write on the wrapped scheduler); identity on a `multiStep`. -/
def Sched.setBaseLastEpoch : Sched → ℤ → Sched
  | .burnIn b s st bl le, e => .burnIn (b.setLastEpoch e) s st bl le
  | s, _ => s

/-- The wrapped scheduler's counter (`self.base.last_epoch`) of a `burnIn`;
`none` for a `multiStep`, which wraps nothing. -/
def Sched.innerLastEpoch : Sched → Option ℤ
  | .burnIn b _ _ _ _ => some b.last_epoch
  | .multiStep _ _ _ _ => none

/-- `get_lr` of both classes.

`MultiStepMultiGammaLR.get_lr` returns
`[base_lr * self.gamma[int(bisect_right(self.milestones, self.last_epoch))]
  for base_lr in self.base_lrs]`
(the stored `gamma` already has the implicit leading `1`).

`BurnInLR.get_lr` first computes `alpha = (1. - beta) / self.steps`, which in
Python raises `ZeroDivisionError` when `self.steps == 0` (modelled as `none`);
then the ramp `base_lr * (self.last_epoch * alpha + beta)` while
`self.last_epoch <= self.steps`, else delegation `self.base.get_lr()`. -/
def Sched.get_lr : Sched → Option (List ℚ)
  | .multiStep milestones gamma base_lrs le =>
      some (base_lrs.map fun base_lr => base_lr * gamma.getD (bisect_right milestones le) 0)
  | .burnIn base steps beta base_lrs le =>
      if steps = 0 then none
      else if le ≤ steps then
        some (base_lrs.map fun base_lr => base_lr * ((le : ℚ) * ((1 - beta) / (steps : ℚ)) + beta))
      else base.get_lr

/-- Modelled from the spec: the base class writes the rate vector into the
optimizer's groups via `zip(self.optimizer.param_groups, values)`; groups
beyond the vector's length keep their rate. -/
def applyLrs (opt : Optim) (lrs : List ℚ) : Optim :=
  ⟨(opt.param_groups.zipWith (fun _ lr => ⟨lr⟩) lrs) ++ opt.param_groups.drop lrs.length⟩

/-- Modelled from the spec: the external base class's `step(epoch?)` — advance
the counter to `epoch` if given, else by one, then compute `get_lr` and apply
it to the optimizer.  `none` when `get_lr` raises (the exception propagates
out of `step`). -/
def stepBase (s : Sched) (epoch : Option ℤ) (opt : Optim) : Option (Sched × Optim) :=
  let e := match epoch with
    | none => s.last_epoch + 1
    | some e => e
  let s' := s.setLastEpoch e
  match s'.get_lr with
  | none => none
  | some lrs => some (s', applyLrs opt lrs)

/-- `step` of both classes.  `MultiStepMultiGammaLR` inherits the base class's
`step`.  `BurnInLR.step(epoch)` first calls `super().step(epoch)`, then
`if epoch is None: epoch = self.base.last_epoch + 1` and
`self.base.last_epoch = epoch` (the synchronization of the wrapped counter). -/
def Sched.step (s : Sched) (epoch : Option ℤ) (opt : Optim) : Option (Sched × Optim) :=
  match s with
  | .multiStep _ _ _ _ => stepBase s epoch opt
  | .burnIn base _ _ _ _ =>
    match stepBase s epoch opt with
    | none => none
    | some (s', opt') =>
      let e := match epoch with
        | none => base.last_epoch + 1
        | some e2 => e2
      some (s'.setBaseLastEpoch e, opt')

/-- `MultiStepMultiGammaLR.__init__(optimizer, milestones, gamma, last_epoch)`.
`if not list(milestones) == sorted(milestones)` — a list equals its
(stable, non-strict) sort exactly when it is sorted non-decreasingly — raises
the first `ValueError`; `if not len(milestones) == len(gamma)` raises the
second; otherwise `self.gamma = [1] + gamma` and the base-class constructor
(modelled from the spec) snapshots the base rates and stores the counter. -/
def MultiStepMultiGammaLR.init (optimizer : Optim) (milestones : List ℤ) (gamma : List ℚ)
    (last_epoch : ℤ) : Except String Sched :=
  if ¬ List.Sorted (· ≤ ·) milestones then
    .error "Milestones should be a list of increasing integers."
  else if ¬ milestones.length = gamma.length then
    .error "Number of milestones should be the same as number of gammas"
  else
    .ok (.multiStep milestones (1 :: gamma) (optimizer.param_groups.map (·.lr)) last_epoch)

/-- `BurnInLR.__init__(base, steps, start)`: stores the three attributes and
calls `super().__init__(base.optimizer, base.last_epoch)` — modelled from the
spec: the base-class constructor snapshots one base rate per parameter group
of the (shared) optimizer, here passed explicitly, and stores the counter
`base.last_epoch`.  No validation of `steps` or `start` is performed. -/
def BurnInLR.init (base : Sched) (steps : ℤ) (start : ℚ) (optimizer : Optim) : Sched :=
  .burnIn base steps start (optimizer.param_groups.map (·.lr)) base.last_epoch

/-- An optimizer used by the concrete test theorems: a single parameter group
at rate five hundredths (0.05). -/
def testOptim : Optim := ⟨[ParamGroup.mk (1 / 20)]⟩

/-- The scheduler state produced by constructing a MultiStepMultiGammaLR over
`testOptim` with milestones `[30, 80]` and gamma `[0.1, 0.01]`. -/
def msSched : Sched := .multiStep [30, 80] [1, 1/10, 1/100] [1/20] (-1)

/-- No burn-in wrapper in the state has a zero ramp length (the condition
under which every `get_lr` division is defined). -/
def Sched.noZeroRamp : Sched → Prop
  | .multiStep _ _ _ _ => True
  | .burnIn b steps _ _ _ => steps ≠ 0 ∧ b.noZeroRamp

/-- Every burn-in wrapper's base-rate snapshot has the same length as its
wrapped scheduler's — guaranteed by construction, since both snapshots are
taken from the same shared optimizer's parameter groups. -/
def Sched.lrsAligned : Sched → Prop
  | .multiStep _ _ _ _ => True
  | .burnIn b _ _ bl _ => bl.length = b.base_lrs.length ∧ b.lrsAligned

/-- Monotonicity of indexing into a non-decreasingly sorted list. -/
theorem sorted_getD_le {a : List ℤ} (hs : a.Sorted (· ≤ ·)) {i j : ℕ} (hij : i ≤ j)
    (hj : j < a.length) : a.getD i 0 ≤ a.getD j 0 := by
  have hi : i < a.length := lt_of_le_of_lt hij hj
  rw [List.getD_eq_getElem a 0 hi, List.getD_eq_getElem a 0 hj]
  rcases eq_or_lt_of_le hij with rfl | h
  · exact le_refl _
  · exact List.pairwise_iff_get.mp hs ⟨i, hi⟩ ⟨j, hj⟩ h

/-- Invariant of the right-biased binary-search loop on a sorted list: the
result splits the indices into a prefix of elements `≤ x` and a suffix of
elements `> x`. -/
theorem bisectRightAux_spec (a : List ℤ) (x : ℤ) (hs : a.Sorted (· ≤ ·)) :
    ∀ lo hi, lo ≤ hi → hi ≤ a.length →
      (∀ i, i < lo → a.getD i 0 ≤ x) →
      (∀ i, hi ≤ i → i < a.length → x < a.getD i 0) →
      lo ≤ bisectRightAux a x lo hi ∧ bisectRightAux a x lo hi ≤ hi ∧
      (∀ i, i < bisectRightAux a x lo hi → a.getD i 0 ≤ x) ∧
      (∀ i, bisectRightAux a x lo hi ≤ i → i < a.length → x < a.getD i 0) := by
  suffices h : ∀ n lo hi, hi - lo = n → lo ≤ hi → hi ≤ a.length →
      (∀ i, i < lo → a.getD i 0 ≤ x) →
      (∀ i, hi ≤ i → i < a.length → x < a.getD i 0) →
      lo ≤ bisectRightAux a x lo hi ∧ bisectRightAux a x lo hi ≤ hi ∧
      (∀ i, i < bisectRightAux a x lo hi → a.getD i 0 ≤ x) ∧
      (∀ i, bisectRightAux a x lo hi ≤ i → i < a.length → x < a.getD i 0) by
    exact fun lo hi => h (hi - lo) lo hi rfl
  intro n
  induction n using Nat.strong_induction_on with
  | _ n ih =>
  intro lo hi hn hlohi hhi hlow hhigh
  rw [bisectRightAux]
  by_cases hlt : lo < hi
  · rw [if_pos hlt]
    have hmidlt : (lo + hi) / 2 < hi := by omega
    have hmidge : lo ≤ (lo + hi) / 2 := by omega
    have hmidlen : (lo + hi) / 2 < a.length := lt_of_lt_of_le hmidlt hhi
    by_cases hx : x < a.getD ((lo + hi) / 2) 0
    · rw [if_pos hx]
      have hhigh2 : ∀ i, (lo + hi) / 2 ≤ i → i < a.length → x < a.getD i 0 := by
        intro i hmi hil
        exact lt_of_lt_of_le hx (sorted_getD_le hs hmi hil)
      obtain ⟨r1, r2, r3, r4⟩ := ih ((lo + hi) / 2 - lo) (by omega) lo ((lo + hi) / 2) rfl
        hmidge (le_of_lt hmidlen) hlow hhigh2
      exact ⟨r1, by omega, r3, r4⟩
    · rw [if_neg hx]
      have hax : a.getD ((lo + hi) / 2) 0 ≤ x := le_of_not_lt hx
      have h1 : ∀ i, i < (lo + hi) / 2 + 1 → a.getD i 0 ≤ x := by
        intro i hi1
        exact le_trans (sorted_getD_le hs (by omega) hmidlen) hax
      obtain ⟨r1, r2, r3, r4⟩ := ih (hi - ((lo + hi) / 2 + 1)) (by omega)
        ((lo + hi) / 2 + 1) hi rfl (by omega) hhi h1 hhigh
      exact ⟨by omega, r2, r3, r4⟩
  · rw [if_neg hlt]
    have : lo = hi := by omega
    subst this
    exact ⟨le_refl _, le_refl _, hlow, hhigh⟩

/-- A count equals `r` when exactly the first `r` positions satisfy the
predicate. -/
theorem countP_eq_of_split (p : ℤ → Bool) :
    ∀ (a : List ℤ) (r : ℕ), r ≤ a.length →
      (∀ i, i < r → p (a.getD i 0) = true) →
      (∀ i, r ≤ i → i < a.length → p (a.getD i 0) = false) →
      a.countP p = r := by
  intro a
  induction a with
  | nil =>
    intro r hr _ _
    simp only [List.length_nil, Nat.le_zero] at hr
    simp [hr]
  | cons hd tl ih =>
    intro r hr h1 h2
    cases r with
    | zero =>
      have hhd : p hd = false := h2 0 (le_refl 0) (by simp)
      have htl : tl.countP p = 0 := by
        refine ih 0 (Nat.zero_le _) (by intro i hi; omega) ?_
        intro i _ hil
        exact h2 (i + 1) (by omega) (by simpa using Nat.succ_lt_succ hil)
      simp [List.countP_cons, hhd, htl]
    | succ r' =>
      have hhd : p hd = true := h1 0 (Nat.succ_pos r')
      have htl : tl.countP p = r' := by
        refine ih r' (by simpa using hr) ?_ ?_
        · intro i hi
          exact h1 (i + 1) (by omega)
        · intro i hri hil
          exact h2 (i + 1) (by omega) (by simpa using Nat.succ_lt_succ hil)
      simp [List.countP_cons, hhd, htl]

/-- On a sorted list, Python's `bisect_right a x` is the number of elements
`≤ x` (the right-biased insertion point). -/
theorem bisect_right_eq_countP (a : List ℤ) (x : ℤ) (hs : a.Sorted (· ≤ ·)) :
    bisect_right a x = a.countP (fun m => m ≤ x) := by
  obtain ⟨_, hle, hlow, hhigh⟩ := bisectRightAux_spec a x hs 0 a.length (Nat.zero_le _)
    (le_refl _) (by intro i hi; omega) (by intro i h1 h2; omega)
  rw [bisect_right]
  refine (countP_eq_of_split _ a _ hle ?_ ?_).symm
  · intro i hi
    simpa using hlow i hi
  · intro i h1 h2
    simpa using not_le.mpr (hhigh i h1 h2)

/-- Re-setting a scheduler's counter to its current value is the identity. -/
theorem setLastEpoch_self (s : Sched) : s.setLastEpoch s.last_epoch = s := by
  cases s <;> rfl

/-- Setting the counter then reading it yields the value set. -/
@[simp]
theorem last_epoch_setLastEpoch (s : Sched) (e : ℤ) : (s.setLastEpoch e).last_epoch = e := by
  cases s <;> rfl

/-- Counter of a burn-in wrapper state. -/
@[simp]
theorem last_epoch_burnIn (b : Sched) (st : ℤ) (sa : ℚ) (bl : List ℚ) (le : ℤ) :
    (Sched.burnIn b st sa bl le).last_epoch = le := rfl

/-- Counter of a multi-step state. -/
@[simp]
theorem last_epoch_multiStep (m : List ℤ) (g bl : List ℚ) (le : ℤ) :
    (Sched.multiStep m g bl le).last_epoch = le := rfl

/-- Inner counter of a burn-in wrapper state. -/
@[simp]
theorem innerLastEpoch_burnIn (b : Sched) (st : ℤ) (sa : ℚ) (bl : List ℚ) (le : ℤ) :
    (Sched.burnIn b st sa bl le).innerLastEpoch = some b.last_epoch := rfl

/-- A completed base-mechanism step leaves the scheduler at the advanced
counter (to `epoch` if given, else its counter plus one) and changes nothing
else about it. -/
theorem stepBase_some {s : Sched} {epoch : Option ℤ} {opt : Optim} {s' : Sched} {opt' : Optim}
    (h : stepBase s epoch opt = some (s', opt')) :
    s' = s.setLastEpoch (match epoch with | none => s.last_epoch + 1 | some e => e) := by
  cases epoch <;>
    · simp only [stepBase] at h
      split at h
      · exact absurd h (by simp)
      · simp only [Option.some.injEq, Prod.mk.injEq] at h
        exact h.1.symm

/-- C1: for every BurnInLR wrapper whose counter equals its inner scheduler's
counter before the call, every completed call to the wrapper's `step(epoch?)`
— with an explicit epoch or with none — advances the wrapper's own counter
exactly like the base mechanism (to `epoch` if given, else by one) and leaves
the inner scheduler's counter equal to the wrapper's counter. -/
theorem burnInLR_step_advances_and_syncs_inner
    (base : Sched) (steps : ℤ) (start : ℚ) (bl : List ℚ) (w : ℤ)
    (epoch : Option ℤ) (opt : Optim) (s' : Sched) (opt' : Optim)
    (hsync : base.last_epoch = w)
    (hstep : (Sched.burnIn base steps start bl w).step epoch opt = some (s', opt')) :
    s'.last_epoch = (match epoch with | none => w + 1 | some e => e) ∧
    s'.innerLastEpoch = some s'.last_epoch := by
  simp only [Sched.step] at hstep
  cases hsb : stepBase (Sched.burnIn base steps start bl w) epoch opt with
  | none => rw [hsb] at hstep; exact absurd hstep (by simp)
  | some p =>
    obtain ⟨s₁, opt₁⟩ := p
    rw [hsb] at hstep
    have hs1 := stepBase_some hsb
    cases epoch with
    | none =>
      simp only [Sched.setLastEpoch, Sched.last_epoch] at hs1
      subst hs1
      simp only [Option.some.injEq, Prod.mk.injEq] at hstep
      obtain ⟨h1, _⟩ := hstep
      subst h1
      simp [Sched.setBaseLastEpoch, hsync]
    | some e =>
      simp only [Sched.setLastEpoch, Sched.last_epoch] at hs1
      subst hs1
      simp only [Option.some.injEq, Prod.mk.injEq] at hstep
      obtain ⟨h1, _⟩ := hstep
      subst h1
      simp [Sched.setBaseLastEpoch]

/-- C1 witness: a concrete wrapper (burn-in over a one-milestone schedule,
both counters at two) stepped once with no explicit epoch ends with both
counters at three, and stepped to epoch seven ends with both counters at
seven. -/
theorem burnInLR_step_sync_witness :
    (Sched.burnIn (.multiStep [30] [1, 1/10] [1/20] 2) 10 (1/10) [1/20] 2).step none testOptim =
      some (.burnIn (.multiStep [30] [1, 1/10] [1/20] 3) 10 (1/10) [1/20] 3,
        ⟨[ParamGroup.mk (1/20 * (3 * ((1 - 1/10) / 10) + 1/10))]⟩) ∧
    (Sched.burnIn (.multiStep [30] [1, 1/10] [1/20] 2) 10 (1/10) [1/20] 2).last_epoch =
      (Sched.multiStep [30] [1, 1/10] [1/20] 2).last_epoch ∧
    (Sched.burnIn (.multiStep [30] [1, 1/10] [1/20] 3) 10 (1/10) [1/20] 3).last_epoch = 2 + 1 ∧
    (Sched.burnIn (.multiStep [30] [1, 1/10] [1/20] 3) 10 (1/10) [1/20] 3).innerLastEpoch =
      some 3 := by
  have hstep : (Sched.burnIn (.multiStep [30] [1, 1/10] [1/20] 2) 10 (1/10) [1/20] 2).step
      none testOptim =
      some (.burnIn (.multiStep [30] [1, 1/10] [1/20] 3) 10 (1/10) [1/20] 3,
        ⟨[ParamGroup.mk (1/20 * (3 * ((1 - 1/10) / 10) + 1/10))]⟩) := by
    simp only [Sched.step, stepBase, Sched.get_lr, Sched.last_epoch, Sched.setLastEpoch,
      Sched.setBaseLastEpoch, applyLrs, testOptim]
    norm_num
  have h := burnInLR_step_advances_and_syncs_inner (.multiStep [30] [1, 1/10] [1/20] 2)
    10 (1/10) [1/20] 2 none testOptim _ _ rfl hstep
  exact ⟨hstep, rfl, h.1, by rw [h.2, h.1]; rfl⟩

/-- C2 counterexample: the duplicate milestone list `[30, 30]` (with a
matching-length gamma list) is NOT rejected — construction succeeds, because
the source only compares the list with its non-strict sort. -/
theorem multiStep_init_accepts_duplicate_milestones :
    (MultiStepMultiGammaLR.init testOptim [30, 30] [1/10, 1/100] (-1)).isOk = true := by
  decide

/-- C2 (amended): construction fails with the configuration error exactly when
`milestones` is not sorted in non-decreasing order or the lengths mismatch; a
descending list such as `[80, 30]` is rejected at construction time, but a
list with a non-decreasing duplicate such as `[30, 30]` passes the check. -/
theorem multiStep_init_rejects_unsorted_only :
    (∀ (optimizer : Optim) (milestones : List ℤ) (gamma : List ℚ) (le : ℤ),
      (MultiStepMultiGammaLR.init optimizer milestones gamma le).isOk = true ↔
        (List.Sorted (· ≤ ·) milestones ∧ milestones.length = gamma.length)) ∧
    (MultiStepMultiGammaLR.init testOptim [80, 30] [1/10, 1/100] (-1)).isOk = false := by
  constructor
  · intro optimizer milestones gamma le
    unfold MultiStepMultiGammaLR.init
    by_cases h1 : List.Sorted (· ≤ ·) milestones
    · by_cases h2 : milestones.length = gamma.length
      · simp [h1, h2, Except.isOk, Except.toBool]
      · simp [h1, h2, Except.isOk, Except.toBool]
    · simp [h1, Except.isOk, Except.toBool]
  · decide

/-- C7: constructing a MultiStepMultiGammaLR with milestone and gamma lists of
different lengths fails at construction time. -/
theorem multiStep_init_rejects_length_mismatch
    (optimizer : Optim) (milestones : List ℤ) (gamma : List ℚ) (le : ℤ)
    (hne : milestones.length ≠ gamma.length) :
    (MultiStepMultiGammaLR.init optimizer milestones gamma le).isOk = false := by
  unfold MultiStepMultiGammaLR.init
  by_cases h1 : List.Sorted (· ≤ ·) milestones <;> simp [h1, hne, Except.isOk, Except.toBool]

/-- C7 witness: `milestones = [30, 80]` with `gamma = [0.1]` is a length
mismatch and is rejected. -/
theorem multiStep_init_length_mismatch_witness :
    ([30, 80] : List ℤ).length ≠ ([1/10] : List ℚ).length ∧
    (MultiStepMultiGammaLR.init testOptim [30, 80] [1/10] (-1)).isOk = false :=
  ⟨by decide, multiStep_init_rejects_length_mismatch testOptim [30, 80] [1/10] (-1) (by decide)⟩

/-- C8: a BurnInLR with `steps = 0` is not rejected by any validation —
construction succeeds for every base, start fraction and optimizer — and the
division by zero in the ramp slope makes `get_lr` raise (return no rate
vector) at every counter value. -/
theorem burnIn_zero_steps_construction_and_div_error
    (base : Sched) (start : ℚ) (optimizer : Optim) :
    BurnInLR.init base 0 start optimizer =
      Sched.burnIn base 0 start (optimizer.param_groups.map (·.lr)) base.last_epoch ∧
    ∀ t : ℤ, ((BurnInLR.init base 0 start optimizer).setLastEpoch t).get_lr = none := by
  refine ⟨rfl, fun t => ?_⟩
  simp [BurnInLR.init, Sched.setLastEpoch, Sched.get_lr]

/-- C10: construction with empty milestone and gamma lists succeeds (both
checks pass), and the resulting schedule's `get_lr` returns the base rates
unchanged at every counter value. -/
theorem multiStep_empty_milestones_identity
    (optimizer : Optim) (le t : ℤ) (bl : List ℚ) :
    MultiStepMultiGammaLR.init optimizer [] [] le =
      .ok (.multiStep [] [1] (optimizer.param_groups.map (·.lr)) le) ∧
    (Sched.multiStep [] [1] bl t).get_lr = some bl := by
  constructor
  · simp [MultiStepMultiGammaLR.init]
  · simp [Sched.get_lr, bisect_right, bisectRightAux]

/-- Evaluation of the inherited `step` on a multi-step schedule with an
explicit epoch. -/
theorem multiStep_step_some (m : List ℤ) (g bl : List ℚ) (le e : ℤ) (opt : Optim) :
    (Sched.multiStep m g bl le).step (some e) opt =
      some (Sched.multiStep m g bl e,
        applyLrs opt (bl.map fun b => b * g.getD (bisect_right m e) 0)) := by
  simp [Sched.step, stepBase, Sched.setLastEpoch, Sched.get_lr]

/-- Bisection value used by the end-to-end test: 29 is before both
milestones. -/
theorem bisect_3080_29 : bisect_right [30, 80] 29 = 0 := by
  rw [bisect_right_eq_countP [30, 80] 29 (by decide)]
  decide

/-- Bisection value used by the end-to-end test: 30 counts as past the first
milestone. -/
theorem bisect_3080_30 : bisect_right [30, 80] 30 = 1 := by
  rw [bisect_right_eq_countP [30, 80] 30 (by decide)]
  decide

/-- Bisection value used by the end-to-end test: 80 counts as past both
milestones. -/
theorem bisect_3080_80 : bisect_right [30, 80] 80 = 2 := by
  rw [bisect_right_eq_countP [30, 80] 80 (by decide)]
  decide

/-- Bisection value used by the delegation test: 11 is before both
milestones. -/
theorem bisect_3080_11 : bisect_right [30, 80] 11 = 0 := by
  rw [bisect_right_eq_countP [30, 80] 11 (by decide)]
  decide

/-- C3: for every validly constructed MultiStepMultiGammaLR, at every counter
value t, every parameter group's rate is its base rate times `factor[k]`,
where `factor = [1.0] + gamma` and `k` is the number of milestone values ≤ t
(the right-biased bisection point); a t exactly equal to a milestone already
counts past it, and each `gamma[j]` multiplies the base rate directly. -/
theorem multiStep_get_lr_base_times_factor
    (optimizer : Optim) (milestones : List ℤ) (gamma : List ℚ) (le : ℤ) (s : Sched)
    (hinit : MultiStepMultiGammaLR.init optimizer milestones gamma le = .ok s) (t : ℤ) :
    (s.setLastEpoch t).get_lr =
      some ((optimizer.param_groups.map (·.lr)).map fun b =>
        b * (1 :: gamma).getD (milestones.countP fun m => m ≤ t) 0) := by
  unfold MultiStepMultiGammaLR.init at hinit
  by_cases h1 : List.Sorted (· ≤ ·) milestones
  · by_cases h2 : milestones.length = gamma.length
    · rw [if_neg (by simp [h1]), if_neg (by simp [h2]), Except.ok.injEq] at hinit
      subst hinit
      simp [Sched.setLastEpoch, Sched.get_lr, bisect_right_eq_countP milestones t h1]
    · exact absurd hinit (by rw [if_neg (by simp [h1]), if_pos (by simp [h2])]; simp)
  · exact absurd hinit (by rw [if_pos (by simp [h1])]; simp)

/-- C3 witness: for the `[30, 80]` / `[0.1, 0.01]` schedule at counter value
exactly 30, two of zero milestones are ≤ 30 is false — one milestone is ≤ 30 —
so the factor is `gamma[0] = 0.1` and the rate is `0.05 * 0.1 = 0.005`. -/
theorem multiStep_get_lr_factor_witness :
    (([30, 80] : List ℤ).countP fun m => m ≤ (30 : ℤ)) = 1 ∧
    (msSched.setLastEpoch 30).get_lr = some [1/20 * (1/10)] := by
  have hinit : MultiStepMultiGammaLR.init testOptim [30, 80] [1/10, 1/100] (-1) =
      .ok msSched := by
    unfold MultiStepMultiGammaLR.init msSched testOptim
    rw [if_neg (by decide), if_neg (by decide)]
    rfl
  have h := multiStep_get_lr_base_times_factor testOptim [30, 80] [1/10, 1/100] (-1)
    msSched hinit 30
  refine ⟨by decide, ?_⟩
  rw [h]
  norm_num [testOptim]

/-- C4: during the burn-in ramp (counter t ≤ steps, with a nonzero ramp
length) every parameter group's rate is its base rate times
`t * alpha + start` with `alpha = (1 - start) / steps`, and at `t = steps`
the factor is exactly one. -/
theorem burnIn_get_lr_linear_ramp
    (base : Sched) (steps : ℤ) (start : ℚ) (bl : List ℚ) (t : ℤ)
    (h0 : steps ≠ 0) (ht : t ≤ steps) :
    (Sched.burnIn base steps start bl t).get_lr =
      some (bl.map fun b => b * ((t : ℚ) * ((1 - start) / (steps : ℚ)) + start)) ∧
    (Sched.burnIn base steps start bl steps).get_lr =
      some (bl.map fun b => b * 1) := by
  have hc : (steps : ℚ) ≠ 0 := Int.cast_ne_zero.mpr h0
  constructor
  · simp [Sched.get_lr, h0, ht]
  · have h1 : (steps : ℚ) * ((1 - start) / (steps : ℚ)) + start = 1 := by
      field_simp
    simp [Sched.get_lr, h0, h1]

/-- C4 witness: for `steps = 10`, `start = 0.1` over a unit base rate, the
ramp yields 0.1 at t = 0, 0.55 at t = 5, and exactly 1.0 at t = 10. -/
theorem burnIn_linear_ramp_witness :
    (Sched.burnIn msSched 10 (1/10) [1] 0).get_lr = some [1/10] ∧
    (Sched.burnIn msSched 10 (1/10) [1] 5).get_lr = some [11/20] ∧
    (Sched.burnIn msSched 10 (1/10) [1] 10).get_lr = some [1] := by
  refine ⟨?_, ?_, ?_⟩
  · rw [(burnIn_get_lr_linear_ramp msSched 10 (1/10) [1] 0 (by decide) (by decide)).1]
    norm_num
  · rw [(burnIn_get_lr_linear_ramp msSched 10 (1/10) [1] 5 (by decide) (by decide)).1]
    norm_num
  · rw [(burnIn_get_lr_linear_ramp msSched 10 (1/10) [1] 10 (by decide) (by decide)).2]
    norm_num

/-- C5: past the ramp (counter t > steps, nonzero ramp length) the wrapper
returns exactly the inner scheduler's own rate vector evaluated at the inner
scheduler's counter — which, under the synchronization established by `step`,
is the wrapper's counter value t, not a counter the inner scheduler held
before wrapping. -/
theorem burnIn_get_lr_delegates_at_synced_counter
    (base : Sched) (steps : ℤ) (start : ℚ) (bl : List ℚ) (t : ℤ)
    (h0 : steps ≠ 0) (ht : steps < t) (hsync : base.last_epoch = t) :
    (Sched.burnIn base steps start bl t).get_lr = (base.setLastEpoch t).get_lr := by
  have hd : (Sched.burnIn base steps start bl t).get_lr = base.get_lr := by
    simp [Sched.get_lr, h0, not_le.mpr ht]
  rw [hd, ← hsync, setLastEpoch_self]

/-- C5 witness: at t = 11, past steps = 10, the wrapper over the synced
`[30, 80]` / `[0.1, 0.01]` schedule returns that schedule's rate at counter
11, which is the undecayed 0.05. -/
theorem burnIn_delegation_witness :
    (Sched.burnIn (.multiStep [30, 80] [1, 1/10, 1/100] [1/20] 11)
        10 (1/10) [1/20] 11).get_lr =
      ((Sched.multiStep [30, 80] [1, 1/10, 1/100] [1/20] 11).setLastEpoch 11).get_lr ∧
    ((Sched.multiStep [30, 80] [1, 1/10, 1/100] [1/20] 11).setLastEpoch 11).get_lr =
      some [1/20] := by
  constructor
  · exact burnIn_get_lr_delegates_at_synced_counter
      (.multiStep [30, 80] [1, 1/10, 1/100] [1/20] 11) 10 (1/10) [1/20] 11
      (by decide) (by decide) rfl
  · simp [Sched.setLastEpoch, Sched.get_lr, bisect_right, bisectRightAux]

/-- C6: end-to-end — constructing the schedule over base rate 0.05 with
milestones `[30, 80]` and gamma `[0.1, 0.01]`, stepping the counter to epoch
29 writes rate 0.05 into the optimizer, stepping to 30 writes 0.005, and
stepping to 80 writes 0.0005. -/
theorem multiStep_end_to_end :
    MultiStepMultiGammaLR.init testOptim [30, 80] [1/10, 1/100] (-1) = .ok msSched ∧
    msSched.step (some 29) testOptim =
      some (msSched.setLastEpoch 29, ⟨[ParamGroup.mk (1/20)]⟩) ∧
    (msSched.setLastEpoch 29).step (some 30) ⟨[ParamGroup.mk (1/20)]⟩ =
      some (msSched.setLastEpoch 30, ⟨[ParamGroup.mk (1/200)]⟩) ∧
    (msSched.setLastEpoch 30).step (some 80) ⟨[ParamGroup.mk (1/200)]⟩ =
      some (msSched.setLastEpoch 80, ⟨[ParamGroup.mk (1/2000)]⟩) := by
  refine ⟨?_, ?_, ?_, ?_⟩
  · unfold MultiStepMultiGammaLR.init msSched testOptim
    rw [if_neg (by decide), if_neg (by decide)]
    rfl
  · simp only [msSched, testOptim, multiStep_step_some, bisect_3080_29]
    norm_num [applyLrs, Sched.setLastEpoch]
  · simp only [msSched, testOptim, Sched.setLastEpoch, multiStep_step_some, bisect_3080_30]
    norm_num [applyLrs]
  · simp only [msSched, testOptim, Sched.setLastEpoch, multiStep_step_some, bisect_3080_80]
    norm_num [applyLrs]

/-- C9 counterexample: a constructible BurnInLR state (ramp length zero) on
which `get_lr` raises instead of returning one rate per parameter group. -/
theorem get_lr_raises_on_zero_ramp :
    (Sched.burnIn (.multiStep [] [1] [1/20] 0) 0 (1/10) [1/20] 0).get_lr = none := by
  simp [Sched.get_lr]

/-- C9 (amended): for every schedule state whose burn-in ramp lengths are all
nonzero (and whose snapshots agree in length with the wrapped scheduler's, as
construction over a shared optimizer guarantees), `get_lr` is a pure query —
in this embedding a function of the state alone, touching no counter, table or
optimizer field — returning one rate per parameter group: a list exactly as
long as the instance's base-rate snapshot. -/
theorem get_lr_pure_rate_vector
    (s : Sched) (h1 : s.noZeroRamp) (h2 : s.lrsAligned) (t : ℤ) :
    ∃ lrs : List ℚ, (s.setLastEpoch t).get_lr = some lrs ∧
      lrs.length = s.base_lrs.length := by
  induction s generalizing t with
  | multiStep m g bl le =>
    exact ⟨_, rfl, by simp [Sched.get_lr, Sched.setLastEpoch, Sched.base_lrs]⟩
  | burnIn b steps sa bl le ih =>
    simp only [Sched.noZeroRamp] at h1
    simp only [Sched.lrsAligned] at h2
    obtain ⟨hs0, hb1⟩ := h1
    obtain ⟨hlen, hb2⟩ := h2
    by_cases hle : t ≤ steps
    · refine ⟨bl.map fun b => b * ((t : ℚ) * ((1 - sa) / (steps : ℚ)) + sa), ?_, ?_⟩
      · simp [Sched.setLastEpoch, Sched.get_lr, hs0, hle]
      · simp [Sched.base_lrs]
    · obtain ⟨lrs, hlrs, hl⟩ := ih hb1 hb2 b.last_epoch
      rw [setLastEpoch_self] at hlrs
      refine ⟨lrs, ?_, ?_⟩
      · simp [Sched.setLastEpoch, Sched.get_lr, hs0, hle, hlrs]
      · simp [Sched.base_lrs, hl, hlen]

/-- C9 witness: a two-level schedule (burn-in over the step schedule) with a
nonzero ramp returns a one-element rate vector for its one parameter group. -/
theorem get_lr_pure_rate_vector_witness :
    (Sched.burnIn msSched 10 (1/10) [1/20] 4).noZeroRamp ∧
    ∃ lrs : List ℚ,
      ((Sched.burnIn msSched 10 (1/10) [1/20] 4).setLastEpoch 5).get_lr = some lrs ∧
      lrs.length = (Sched.burnIn msSched 10 (1/10) [1/20] 4).base_lrs.length := by
  refine ⟨⟨by decide, trivial⟩, ?_⟩
  exact get_lr_pure_rate_vector (Sched.burnIn msSched 10 (1/10) [1/20] 4)
    ⟨by decide, trivial⟩ ⟨rfl, trivial⟩ 5

end SkyEye
